import Mathlib

/-!
Shallow embedding of the city-wall extraction pipeline (`src/src/main.rs`).

The program makes two passes over a stream of OSM objects:
pass 1 collects every way tagged `barrier=city_wall` into `cwalls` and
inserts each of its node ids into the map `cwall_nodes` with value `None`
(`HashMap::extend`, which overwrites on key collision);
pass 2 fills in coordinates for nodes whose id is a key of `cwall_nodes`
(`Entry::Occupied`), asserting that no id is resolved twice;
finally each way is turned into a `LineString(...)` text with coordinates
formatted to 7 fractional digits and inserted inside a single transaction.

Machine `i64` node ids are modelled as `Int`; `f64` coordinates are modelled
as `ℚ` (the program performs no arithmetic on them, it only stores and
formats them); the `HashMap` is modelled as an association list with
first-match lookup and replace-or-append insertion; the fatal
`assert!`/index panics and the `?` propagation are modelled with
`Except`/`Option`.
-/

namespace CityWalls

/-- A coordinate pair `(lon, lat)`, the payload of a resolved node. -/
abbrev Coord := ℚ × ℚ

/-- The `cwall_nodes` map: point identifier to optional coordinate,
modelling `HashMap<NodeId, Option<(f64, f64)>>`. -/
abbrev RefMap := List (Int × Option Coord)

/-- First-match lookup, modelling `HashMap::get` / the `entry` test. -/
def refFind? : RefMap → Int → Option (Option Coord)
  | [], _ => none
  | (k', v) :: rest, k => if k' = k then some v else refFind? rest k

/-- Insert with overwrite, modelling a single `HashMap::insert`:
replaces the value at an existing key, otherwise adds the key. -/
def refInsert : RefMap → Int → Option Coord → RefMap
  | [], k, v => [(k, v)]
  | (k', v') :: rest, k, v =>
    if k' = k then (k, v) :: rest else (k', v') :: refInsert rest k v

/-- `cwall_nodes.extend(way.nodes.iter().map(|&id| (id, None)))`:
insert every id of the list with an absent coordinate. -/
def refExtend (m : RefMap) (ids : List Int) : RefMap :=
  ids.foldl (fun acc id => refInsert acc id none) m

/-- Number of entries whose coordinate is resolved. -/
def resolvedCount (m : RefMap) : Nat :=
  (m.filter (fun p => p.2.isSome)).length

/-- An OSM node: identifier plus coordinates (`node.id`, `node.lon()`, `node.lat()`). -/
structure Node where
  id : Int
  lon : ℚ
  lat : ℚ

/-- An OSM way: identifier, ordered node-id list and tag set.
The name is carried inside `tags` (the program reads `tags.get("name")`). -/
structure Way where
  id : Int
  nodes : List Int
  tags : List (String × String)

/-- A decoded dataset object (`OsmObj`): node, way or relation. -/
inductive OsmObj where
  | node (n : Node)
  | way (w : Way)
  | relation (id : Int)

/-- `Tags::get`: value of the first binding of the key, if any. -/
def tagsGet : List (String × String) → String → Option String
  | [], _ => none
  | (k', v) :: rest, k => if k' = k then some v else tagsGet rest k

/-- `Tags::contains(key, value)`: the key is bound and its value matches. -/
def tagsContains (tags : List (String × String)) (k v : String) : Bool :=
  tagsGet tags k == some v

/-- `way.tags.contains("barrier", "city_wall")`, the retention test of pass 1. -/
def isCityWall (w : Way) : Bool :=
  tagsContains w.tags "barrier" "city_wall"

/-- State of pass 1: the retained ways `cwalls` and the map `cwall_nodes`. -/
structure Pass1State where
  cwalls : List Way
  cwall_nodes : RefMap

/-- One iteration of the first loop: a way matching `barrier=city_wall` has its
node ids folded into `cwall_nodes` and is pushed onto `cwalls`;
every other object leaves the state unchanged. -/
def pass1Step (st : Pass1State) (obj : OsmObj) : Pass1State :=
  match obj with
  | .way w =>
    if isCityWall w then
      { cwalls := st.cwalls ++ [w], cwall_nodes := refExtend st.cwall_nodes w.nodes }
    else st
  | _ => st

/-- The whole first pass over the object stream, from the empty state. -/
def pass1 (objs : List OsmObj) : Pass1State :=
  objs.foldl pass1Step { cwalls := [], cwall_nodes := [] }

/-- State of pass 2: the map being filled and the `node_count` counter. -/
structure Pass2State where
  cwall_nodes : RefMap
  node_count : Nat

/-- One iteration of the second loop: a node whose id is a vacant key is
skipped; an occupied key receives the coordinates, and the `assert!` on the
previous value turns a second resolution into a fatal error. -/
def pass2Step (st : Pass2State) : OsmObj → Except String Pass2State
  | .node n =>
    match refFind? st.cwall_nodes n.id with
    | none => .ok st
    | some old =>
      let m' := refInsert st.cwall_nodes n.id (some (n.lon, n.lat))
      if old.isSome then .error "Duplicate node ID"
      else .ok { cwall_nodes := m', node_count := st.node_count + 1 }
  | _ => .ok st

/-- The whole second pass: fold `pass2Step`, propagating the fatal error. -/
def pass2 (st : Pass2State) : List OsmObj → Except String Pass2State
  | [] => .ok st
  | o :: rest => (pass2Step st o).bind (fun st' => pass2 st' rest)

/-- Decimal digits of a natural number, most significant first; the first
argument is recursion fuel (`n + 1` is always enough). -/
def natDigsGo : Nat → Nat → List Char
  | 0, _ => []
  | fuel + 1, n =>
    if n < 10 then [Nat.digitChar n]
    else natDigsGo fuel (n / 10) ++ [Nat.digitChar (n % 10)]

/-- Decimal digit list of a natural number, most significant digit first
(the integer part written by the Rust formatter). -/
def natDigs (n : Nat) : List Char :=
  natDigsGo (n + 1) n

/-- The 7 fractional digits of `m < 10^7`, most significant first. -/
def frac7 (m : Nat) : List Char :=
  (List.range 7).map (fun i => Nat.digitChar (m / 10 ^ (6 - i) % 10))

/-- Rendering of the scaled integer `n = round (x * 10^7)`: sign, integer
part, a decimal point and the 7 fractional digits. -/
def formatScaled (n : Int) : String :=
  (if n < 0 then "-" else "") ++ String.mk (natDigs (n.natAbs / 10 ^ 7))
    ++ "." ++ String.mk (frac7 (n.natAbs % 10 ^ 7))

/-- `format!("{x:.7}")`: fixed-point rendering with exactly 7 digits after
the decimal point — round `x * 10^7` to the nearest integer and print it
with the decimal point 7 places from the right. -/
def formatFixed7 (q : ℚ) : String :=
  formatScaled (round (q * 10 ^ 7))

/-- `format!("{lon:.7} {lat:.7}")`: one coordinate pair, space-separated. -/
def formatCoord (c : Coord) : String :=
  formatFixed7 c.1 ++ " " ++ formatFixed7 c.2

/-- `format!("LineString({})", node_strs.join(","))`. -/
def mkLineString (strs : List String) : String :=
  "LineString(" ++ String.intercalate "," strs ++ ")"

/-- The geometry loop over a node-id list:
`cwall.nodes.iter().map(|id| cwall_nodes[id].map(...)).collect::<Option<Vec<_>>>()`.
The outer `Option` models the index panic on a missing key (`none` = panic);
the inner one models `collect`, which stops at the first unresolved node. -/
def assembleGo (m : RefMap) : List Int → Option (Option (List String))
  | [] => some (some [])
  | id :: rest =>
    match refFind? m id with
    | none => none
    | some none => some none
    | some (some c) =>
      (assembleGo m rest).map (fun inner => inner.map (fun strs => formatCoord c :: strs))

/-- `opt_geometry` for one way: the collected coordinate strings wrapped as a
line string; inner `none` when some node is unresolved (the way is skipped),
outer `none` when the map index would panic. -/
def assemble (m : RefMap) (w : Way) : Option (Option String) :=
  (assembleGo m w.nodes).map (fun inner => inner.map mkLineString)

/-- The records handed to the insert statement, in retained-way order:
`(opt_name, geometry)` for each way whose geometry assembled. -/
def loadRecords (m : RefMap) (ways : List Way) : List (Option String × String) :=
  ways.filterMap (fun w =>
    ((assemble m w).join).map (fun g => (tagsGet w.tags "name", g)))

/-- The key list of the map, in entry order. -/
def refKeys (m : RefMap) : List Int :=
  m.map Prod.fst

/-- All values of the map are absent coordinates (the state of `cwall_nodes`
throughout pass 1, before any node is resolved). -/
def allNone (m : RefMap) : Prop :=
  ∀ p ∈ m, p.2 = none

/-- The selection made by one pass-1 iteration: a way tagged
`barrier=city_wall`, and nothing for any other object. -/
def wayFilter : OsmObj → Option Way
  | .way w => if isCityWall w then some w else none
  | _ => none

/-- The identifiers of the node objects of a stream, in stream order. -/
def nodeIds (objs : List OsmObj) : List Int :=
  objs.filterMap (fun o => match o with | .node n => some n.id | _ => none)

/-- An operation executed against the destination store. -/
inductive StoreOp where
  | beginTx
  | insert (name : Option String) (geo : String)
  | commit
deriving DecidableEq

/-- The insert operation bound from one load record. -/
def toOp (r : Option String × String) : StoreOp :=
  .insert r.1 r.2

/-- The insert loop and final commit: `i` is the sequence number of the next
store operation and `failAt` tells which operations the store fails
(`?` aborts the run at the first failing one). Returns the attempted
operations in order and whether the run succeeded. -/
def runLoadGo (failAt : Nat → Bool) :
    List (Option String × String) → Nat → List StoreOp → List StoreOp × Bool
  | [], i, acc => (acc ++ [.commit], !failAt i)
  | r :: rest, i, acc =>
    let acc' := acc ++ [toOp r]
    if failAt i then (acc', false) else runLoadGo failAt rest (i + 1) acc'

/-- The whole load stage: `start_transaction` (operation 0), then one
parameterized insert per record, then `commit`; any failure aborts. -/
def runLoad (records : List (Option String × String)) (failAt : Nat → Bool) :
    List StoreOp × Bool :=
  if failAt 0 then ([.beginTx], false)
  else runLoadGo failAt records 1 [.beginTx]

/-! ### Association-list map lemmas -/

theorem refExtend_nil (m : RefMap) : refExtend m [] = m := rfl

theorem refExtend_cons (m : RefMap) (a : Int) (ids : List Int) :
    refExtend m (a :: ids) = refExtend (refInsert m a none) ids := rfl

theorem refFind?_insert_self (m : RefMap) (k : Int) (v : Option Coord) :
    refFind? (refInsert m k v) k = some v := by
  induction m with
  | nil => simp [refInsert, refFind?]
  | cons p rest ih =>
    obtain ⟨k', v'⟩ := p
    by_cases h : k' = k
    · simp [refInsert, h, refFind?]
    · simp [refInsert, h, refFind?, ih]

theorem refFind?_insert_ne (m : RefMap) {k k' : Int} (v : Option Coord) (h : k' ≠ k) :
    refFind? (refInsert m k v) k' = refFind? m k' := by
  induction m with
  | nil => simp [refInsert, refFind?, Ne.symm h]
  | cons p rest ih =>
    obtain ⟨a, b⟩ := p
    by_cases ha : a = k
    · subst ha
      simp [refInsert, refFind?, Ne.symm h]
    · simp only [refInsert, if_neg ha, refFind?]
      by_cases ha' : a = k'
      · simp [ha']
      · simp [ha', ih]

theorem isSome_refFind?_insert (m : RefMap) (k i : Int) (v : Option Coord) :
    (refFind? (refInsert m i v) k).isSome ↔ k = i ∨ (refFind? m k).isSome := by
  by_cases h : k = i
  · subst h
    simp [refFind?_insert_self]
  · simp [refFind?_insert_ne m v h, h]

theorem refFind?_extend_notMem {k : Int} {ids : List Int} (m : RefMap) (h : k ∉ ids) :
    refFind? (refExtend m ids) k = refFind? m k := by
  induction ids generalizing m with
  | nil => rfl
  | cons a tl ih =>
    rw [refExtend_cons, ih _ (fun hk => h (List.mem_cons_of_mem _ hk)),
      refFind?_insert_ne _ _ (fun hk => h (by rw [hk]; exact List.mem_cons_self _ _))]

theorem refFind?_extend_isSome (m : RefMap) (ids : List Int) (k : Int) :
    (refFind? (refExtend m ids) k).isSome ↔ k ∈ ids ∨ (refFind? m k).isSome := by
  induction ids generalizing m with
  | nil => simp [refExtend_nil]
  | cons a tl ih =>
    rw [refExtend_cons, ih, isSome_refFind?_insert]
    simp [List.mem_cons]
    tauto

theorem refFind?_extend_mem_none {k : Int} {ids : List Int} (m : RefMap) (h : k ∈ ids) :
    refFind? (refExtend m ids) k = some none := by
  induction ids generalizing m with
  | nil => cases h
  | cons a tl ih =>
    by_cases hk : k ∈ tl
    · rw [refExtend_cons]
      exact ih _ hk
    · have hka : k = a := by
        rcases List.mem_cons.mp h with h' | h'
        · exact h'
        · exact absurd h' hk
      subst hka
      rw [refExtend_cons, refFind?_extend_notMem _ hk, refFind?_insert_self]

theorem refInsert_none_noop {m : RefMap} {k : Int} (h : refFind? m k = some none) :
    refInsert m k none = m := by
  induction m with
  | nil => simp [refFind?] at h
  | cons p rest ih =>
    obtain ⟨a, b⟩ := p
    by_cases ha : a = k
    · subst ha
      simp [refFind?] at h
      simp [refInsert, h]
    · simp only [refFind?, if_neg ha] at h
      simp [refInsert, ha, ih h]

theorem refExtend_noop {m : RefMap} {ids : List Int}
    (h : ∀ k ∈ ids, refFind? m k = some none) : refExtend m ids = m := by
  induction ids with
  | nil => rfl
  | cons a tl ih =>
    rw [refExtend_cons, refInsert_none_noop (h a (List.mem_cons_self _ _))]
    exact ih (fun k hk => h k (List.mem_cons_of_mem _ hk))

theorem refExtend_idem (m : RefMap) (ids : List Int) :
    refExtend (refExtend m ids) ids = refExtend m ids :=
  refExtend_noop (fun _ hk => refFind?_extend_mem_none _ hk)

theorem refKeys_nil : refKeys [] = [] := rfl

theorem refKeys_cons (a : Int) (b : Option Coord) (rest : RefMap) :
    refKeys ((a, b) :: rest) = a :: refKeys rest := rfl

theorem mem_refKeys (m : RefMap) (k : Int) :
    k ∈ refKeys m ↔ (refFind? m k).isSome := by
  induction m with
  | nil => simp [refKeys_nil, refFind?]
  | cons p rest ih =>
    obtain ⟨a, b⟩ := p
    by_cases ha : a = k
    · subst ha
      simp [refKeys_cons, refFind?]
    · simp [refKeys_cons, refFind?, if_neg ha, ih, Ne.symm ha]

theorem refKeys_insert (m : RefMap) (k : Int) (v : Option Coord) :
    refKeys (refInsert m k v) =
      if (refFind? m k).isSome then refKeys m else refKeys m ++ [k] := by
  induction m with
  | nil => simp [refKeys_nil, refKeys, refInsert, refFind?]
  | cons p rest ih =>
    obtain ⟨a, b⟩ := p
    by_cases ha : a = k
    · subst ha
      simp [refKeys_cons, refInsert, refFind?]
    · simp only [refInsert, if_neg ha, refKeys_cons, refFind?, ih]
      split <;> simp

theorem nodup_refKeys_insert {m : RefMap} (k : Int) (v : Option Coord)
    (h : (refKeys m).Nodup) : (refKeys (refInsert m k v)).Nodup := by
  rw [refKeys_insert]
  split
  · exact h
  · rename_i hns
    have hk : k ∉ refKeys m := fun hmem => hns ((mem_refKeys m k).mp hmem)
    simp [List.nodup_append, h, hk]

theorem nodup_refKeys_extend {m : RefMap} (ids : List Int)
    (h : (refKeys m).Nodup) : (refKeys (refExtend m ids)).Nodup := by
  induction ids generalizing m with
  | nil => exact h
  | cons a tl ih => exact ih (nodup_refKeys_insert a none h)

theorem length_refKeys (m : RefMap) : (refKeys m).length = m.length :=
  List.length_map _ _

theorem resolvedCount_cons (a : Int) (b : Option Coord) (rest : RefMap) :
    resolvedCount ((a, b) :: rest) =
      (if b.isSome then 1 else 0) + resolvedCount rest := by
  simp only [resolvedCount, List.filter_cons]
  split <;> simp [Nat.add_comm]

theorem resolvedCount_insert_some {m : RefMap} {k : Int}
    (h : refFind? m k = some none) (c : Coord) :
    resolvedCount (refInsert m k (some c)) = resolvedCount m + 1 := by
  induction m with
  | nil => simp [refFind?] at h
  | cons p rest ih =>
    obtain ⟨a, b⟩ := p
    by_cases ha : a = k
    · subst ha
      simp [refFind?] at h
      subst h
      simp [refInsert, resolvedCount_cons]
      omega
    · simp only [refFind?, if_neg ha] at h
      simp only [refInsert, if_neg ha]
      rw [resolvedCount_cons, resolvedCount_cons, ih h]
      omega

theorem resolvedCount_allNone {m : RefMap} (h : allNone m) : resolvedCount m = 0 := by
  induction m with
  | nil => rfl
  | cons p rest ih =>
    obtain ⟨a, b⟩ := p
    have hb : b = none := h (a, b) (List.mem_cons_self _ _)
    subst hb
    rw [resolvedCount_cons, ih (fun p hp => h p (List.mem_cons_of_mem _ hp))]
    simp

theorem allNone_refInsert_none {m : RefMap} (k : Int) (h : allNone m) :
    allNone (refInsert m k none) := by
  induction m with
  | nil =>
    intro p hp
    simp [refInsert] at hp
    simp [hp]
  | cons q rest ih =>
    obtain ⟨a, b⟩ := q
    by_cases ha : a = k
    · subst ha
      intro p hp
      simp [refInsert] at hp
      rcases hp with hp | hp
      · simp [hp]
      · exact h p (List.mem_cons_of_mem _ hp)
    · intro p hp
      simp only [refInsert, if_neg ha, List.mem_cons] at hp
      rcases hp with hp | hp
      · exact hp ▸ h (a, b) (List.mem_cons_self _ _)
      · exact ih (fun q hq => h q (List.mem_cons_of_mem _ hq)) p hp

theorem allNone_refExtend {m : RefMap} (ids : List Int) (h : allNone m) :
    allNone (refExtend m ids) := by
  induction ids generalizing m with
  | nil => exact h
  | cons a tl ih => exact ih (allNone_refInsert_none a h)

/-! ### Pass-1 lemmas -/

theorem pass1_foldl_cwalls (objs : List OsmObj) (st : Pass1State) :
    (objs.foldl pass1Step st).cwalls = st.cwalls ++ objs.filterMap wayFilter := by
  induction objs generalizing st with
  | nil => simp
  | cons o rest ih =>
    rw [List.foldl_cons, ih]
    cases o with
    | way w =>
      by_cases hw : isCityWall w
      · simp [pass1Step, wayFilter, hw, List.filterMap_cons]
      · simp [pass1Step, wayFilter, hw, List.filterMap_cons]
    | node n => simp [pass1Step, wayFilter, List.filterMap_cons]
    | relation i => simp [pass1Step, wayFilter, List.filterMap_cons]

theorem pass1_cwalls (objs : List OsmObj) :
    (pass1 objs).cwalls = objs.filterMap wayFilter := by
  simpa using pass1_foldl_cwalls objs { cwalls := [], cwall_nodes := [] }

theorem pass1_foldl_keys (objs : List OsmObj) (st : Pass1State) (k : Int)
    (h : (refFind? st.cwall_nodes k).isSome ↔ ∃ w ∈ st.cwalls, k ∈ w.nodes) :
    ((refFind? (objs.foldl pass1Step st).cwall_nodes k).isSome ↔
      ∃ w ∈ (objs.foldl pass1Step st).cwalls, k ∈ w.nodes) := by
  induction objs generalizing st with
  | nil => exact h
  | cons o rest ih =>
    rw [List.foldl_cons]
    apply ih
    cases o with
    | node n => exact h
    | relation i => exact h
    | way w =>
      by_cases hw : isCityWall w
      · simp only [pass1Step, hw, if_pos]
        rw [refFind?_extend_isSome, h]
        simp only [List.mem_append, List.mem_singleton]
        constructor
        · rintro (hk | ⟨w', hw', hk⟩)
          · exact ⟨w, Or.inr rfl, hk⟩
          · exact ⟨w', Or.inl hw', hk⟩
        · rintro ⟨w', hw' | rfl, hk⟩
          · exact Or.inr ⟨w', hw', hk⟩
          · exact Or.inl hk
      · simpa [pass1Step, hw] using h

theorem pass1_keys (objs : List OsmObj) (k : Int) :
    (refFind? (pass1 objs).cwall_nodes k).isSome ↔
      ∃ w ∈ (pass1 objs).cwalls, k ∈ w.nodes := by
  apply pass1_foldl_keys
  simp [refFind?]

theorem pass1_foldl_allNone (objs : List OsmObj) (st : Pass1State)
    (h : allNone st.cwall_nodes) : allNone ((objs.foldl pass1Step st).cwall_nodes) := by
  induction objs generalizing st with
  | nil => exact h
  | cons o rest ih =>
    rw [List.foldl_cons]
    apply ih
    cases o with
    | node n => exact h
    | relation i => exact h
    | way w =>
      by_cases hw : isCityWall w
      · simp only [pass1Step, hw, if_pos]
        exact allNone_refExtend _ h
      · simpa [pass1Step, hw] using h

theorem pass1_allNone (objs : List OsmObj) : allNone (pass1 objs).cwall_nodes := by
  apply pass1_foldl_allNone
  intro p hp
  cases hp

theorem pass1_foldl_nodupKeys (objs : List OsmObj) (st : Pass1State)
    (h : (refKeys st.cwall_nodes).Nodup) :
    (refKeys ((objs.foldl pass1Step st).cwall_nodes)).Nodup := by
  induction objs generalizing st with
  | nil => exact h
  | cons o rest ih =>
    rw [List.foldl_cons]
    apply ih
    cases o with
    | node n => exact h
    | relation i => exact h
    | way w =>
      by_cases hw : isCityWall w
      · simp only [pass1Step, hw, if_pos]
        exact nodup_refKeys_extend _ h
      · simpa [pass1Step, hw] using h

theorem pass1_nodupKeys (objs : List OsmObj) :
    (refKeys (pass1 objs).cwall_nodes).Nodup := by
  apply pass1_foldl_nodupKeys
  simp [refKeys_nil]

/-! ### Pass-2 lemmas -/

theorem pass2Step_way (st : Pass2State) (w : Way) :
    pass2Step st (.way w) = .ok st := rfl

theorem pass2Step_relation (st : Pass2State) (i : Int) :
    pass2Step st (.relation i) = .ok st := rfl

theorem pass2Step_node_vacant {st : Pass2State} {n : Node}
    (h : refFind? st.cwall_nodes n.id = none) : pass2Step st (.node n) = .ok st := by
  simp [pass2Step, h]

theorem pass2Step_node_unresolved {st : Pass2State} {n : Node}
    (h : refFind? st.cwall_nodes n.id = some none) :
    pass2Step st (.node n) =
      .ok { cwall_nodes := refInsert st.cwall_nodes n.id (some (n.lon, n.lat)),
            node_count := st.node_count + 1 } := by
  simp [pass2Step, h]

theorem pass2Step_node_resolved {st : Pass2State} {n : Node} (c : Coord)
    (h : refFind? st.cwall_nodes n.id = some (some c)) :
    pass2Step st (.node n) = .error "Duplicate node ID" := by
  simp [pass2Step, h]

theorem pass2Step_ok_keys {st st₁ : Pass2State} {o : OsmObj}
    (h : pass2Step st o = .ok st₁) (k : Int) :
    (refFind? st₁.cwall_nodes k).isSome = (refFind? st.cwall_nodes k).isSome := by
  cases o with
  | way w =>
    rw [pass2Step_way] at h
    cases h
    rfl
  | relation i =>
    rw [pass2Step_relation] at h
    cases h
    rfl
  | node n =>
    rcases hf : refFind? st.cwall_nodes n.id with _ | old
    · rw [pass2Step_node_vacant hf] at h
      cases h
      rfl
    · cases old with
      | some c => rw [pass2Step_node_resolved c hf] at h; cases h
      | none =>
        rw [pass2Step_node_unresolved hf] at h
        cases h
        by_cases hk : k = n.id
        · subst hk
          rw [refFind?_insert_self]
          simp [hf]
        · rw [refFind?_insert_ne _ _ hk]

theorem pass2Step_ok_count {st st₁ : Pass2State} {o : OsmObj}
    (h : pass2Step st o = .ok st₁) :
    st₁.node_count + resolvedCount st.cwall_nodes =
      st.node_count + resolvedCount st₁.cwall_nodes := by
  cases o with
  | way w =>
    rw [pass2Step_way] at h
    cases h
    rfl
  | relation i =>
    rw [pass2Step_relation] at h
    cases h
    rfl
  | node n =>
    rcases hf : refFind? st.cwall_nodes n.id with _ | old
    · rw [pass2Step_node_vacant hf] at h
      cases h
      rfl
    · cases old with
      | some c => rw [pass2Step_node_resolved c hf] at h; cases h
      | none =>
        rw [pass2Step_node_unresolved hf] at h
        cases h
        simp only [resolvedCount_insert_some hf]
        omega

theorem pass2_nil (st : Pass2State) : pass2 st [] = .ok st := rfl

theorem pass2_cons (st : Pass2State) (o : OsmObj) (rest : List OsmObj) :
    pass2 st (o :: rest) = (pass2Step st o).bind (fun st₁ => pass2 st₁ rest) := rfl

theorem pass2_ok_keys {objs : List OsmObj} {st st' : Pass2State}
    (h : pass2 st objs = .ok st') (k : Int) :
    (refFind? st'.cwall_nodes k).isSome = (refFind? st.cwall_nodes k).isSome := by
  induction objs generalizing st with
  | nil =>
    rw [pass2_nil] at h
    cases h
    rfl
  | cons o rest ih =>
    rw [pass2_cons] at h
    rcases hstep : pass2Step st o with e | st₁ <;> rw [hstep] at h
    · cases h
    · simp only [Except.bind] at h
      rw [ih h, pass2Step_ok_keys hstep]

theorem pass2_ok_count {objs : List OsmObj} {st st' : Pass2State}
    (h : pass2 st objs = .ok st') :
    st'.node_count + resolvedCount st.cwall_nodes =
      st.node_count + resolvedCount st'.cwall_nodes := by
  induction objs generalizing st with
  | nil =>
    rw [pass2_nil] at h
    cases h
    rfl
  | cons o rest ih =>
    rw [pass2_cons] at h
    rcases hstep : pass2Step st o with e | st₁ <;> rw [hstep] at h
    · cases h
    · simp only [Except.bind] at h
      have h1 := pass2Step_ok_count hstep
      have h2 := ih h
      omega

theorem nodeIds_nil : nodeIds [] = [] := rfl

theorem nodeIds_cons_node (n : Node) (rest : List OsmObj) :
    nodeIds (.node n :: rest) = n.id :: nodeIds rest := rfl

theorem nodeIds_cons_way (w : Way) (rest : List OsmObj) :
    nodeIds (.way w :: rest) = nodeIds rest := rfl

theorem nodeIds_cons_relation (i : Int) (rest : List OsmObj) :
    nodeIds (.relation i :: rest) = nodeIds rest := rfl

/-- Running pass 2 over a stream whose node identifiers are pairwise distinct
and none of which is already resolved: the pass succeeds, leaves untouched
every key outside the stream, resolves every key that occurs as a node id,
and increments the counter once per such key. -/
theorem pass2_run_distinct (objs : List OsmObj) (st : Pass2State)
    (hnd : (nodeIds objs).Nodup)
    (hno : ∀ k ∈ nodeIds objs, ∀ c : Coord, refFind? st.cwall_nodes k ≠ some (some c)) :
    ∃ st', pass2 st objs = .ok st' ∧
      (∀ k, k ∉ nodeIds objs → refFind? st'.cwall_nodes k = refFind? st.cwall_nodes k) ∧
      (∀ k ∈ nodeIds objs, (refFind? st.cwall_nodes k).isSome →
        ∃ c, refFind? st'.cwall_nodes k = some (some c)) ∧
      st'.node_count = st.node_count +
        ((nodeIds objs).filter
          (fun k => (refFind? st.cwall_nodes k).isSome)).length := by
  induction objs generalizing st with
  | nil =>
    exact ⟨st, rfl, fun k _ => rfl,
      fun k hk => absurd hk (by simp [nodeIds_nil]), by simp [nodeIds_nil]⟩
  | cons o rest ih =>
    cases o with
    | way w =>
      rw [nodeIds_cons_way] at hnd hno ⊢
      obtain ⟨st', hrun, hout, hres, hcnt⟩ := ih st hnd hno
      exact ⟨st', by rw [pass2_cons, pass2Step_way]; simpa [Except.bind] using hrun,
        hout, hres, hcnt⟩
    | relation i =>
      rw [nodeIds_cons_relation] at hnd hno ⊢
      obtain ⟨st', hrun, hout, hres, hcnt⟩ := ih st hnd hno
      exact ⟨st', by rw [pass2_cons, pass2Step_relation]; simpa [Except.bind] using hrun,
        hout, hres, hcnt⟩
    | node n =>
      rw [nodeIds_cons_node] at hnd hno ⊢
      obtain ⟨hnotin, hndrest⟩ := List.nodup_cons.mp hnd
      rcases hf : refFind? st.cwall_nodes n.id with _ | old
      · obtain ⟨st', hrun, hout, hres, hcnt⟩ :=
          ih st hndrest (fun k hk c => hno k (List.mem_cons_of_mem _ hk) c)
        refine ⟨st', ?_, ?_, ?_, ?_⟩
        · rw [pass2_cons, pass2Step_node_vacant hf]
          simpa [Except.bind] using hrun
        · intro k hk
          exact hout k (fun hk' => hk (List.mem_cons_of_mem _ hk'))
        · intro k hk hsome
          rcases List.mem_cons.mp hk with rfl | hk'
          · rw [hf] at hsome
            cases hsome
          · exact hres k hk' hsome
        · rw [List.filter_cons]
          simp only [hf, Option.isSome_none]
          simpa using hcnt
      · have hold : old = none := by
          cases old with
          | none => rfl
          | some c => exact absurd hf (hno n.id (List.mem_cons_self _ _) c)
        subst hold
        have hmemne : ∀ k ∈ nodeIds rest, k ≠ n.id := by
          intro k hk hkeq
          exact hnotin (hkeq ▸ hk)
        have hno₁ : ∀ k ∈ nodeIds rest, ∀ c : Coord,
            refFind? (refInsert st.cwall_nodes n.id (some (n.lon, n.lat))) k ≠
              some (some c) := by
          intro k hk c
          rw [refFind?_insert_ne _ _ (hmemne k hk)]
          exact hno k (List.mem_cons_of_mem _ hk) c
        obtain ⟨st', hrun, hout, hres, hcnt⟩ :=
          ih { cwall_nodes := refInsert st.cwall_nodes n.id (some (n.lon, n.lat)),
               node_count := st.node_count + 1 } hndrest hno₁
        refine ⟨st', ?_, ?_, ?_, ?_⟩
        · rw [pass2_cons, pass2Step_node_unresolved hf]
          simpa [Except.bind] using hrun
        · intro k hk
          have hk1 : k ∉ nodeIds rest := fun hk' => hk (List.mem_cons_of_mem _ hk')
          have hk2 : k ≠ n.id := fun hkeq => hk (by rw [hkeq]; exact List.mem_cons_self _ _)
          rw [hout k hk1]
          exact refFind?_insert_ne _ _ hk2
        · intro k hk _
          rcases List.mem_cons.mp hk with rfl | hk'
          · refine ⟨(n.lon, n.lat), ?_⟩
            rw [hout n.id hnotin, refFind?_insert_self]
          · have hsome₁ : (refFind? (refInsert st.cwall_nodes n.id
                (some (n.lon, n.lat))) k).isSome := by
              rw [refFind?_insert_ne _ _ (hmemne k hk')]
              rename_i hsome
              exact hsome
            exact hres k hk' hsome₁
        · have hfilter : (nodeIds rest).filter
              (fun k => (refFind? (refInsert st.cwall_nodes n.id
                (some (n.lon, n.lat))) k).isSome) =
              (nodeIds rest).filter
                (fun k => (refFind? st.cwall_nodes k).isSome) := by
            apply List.filter_congr
            intro k hk
            rw [refFind?_insert_ne _ _ (hmemne k hk)]
          rw [List.filter_cons]
          simp only [hf, Option.isSome_some, if_pos]
          rw [hcnt, hfilter]
          simp only [List.length_cons]
          omega

/-! ### Geometry-assembly lemmas -/

theorem assembleGo_resolved {m : RefMap} {ids : List Int} (c : Int → Coord)
    (h : ∀ id ∈ ids, refFind? m id = some (some (c id))) :
    assembleGo m ids = some (some (ids.map (fun id => formatCoord (c id)))) := by
  induction ids with
  | nil => rfl
  | cons a tl ih =>
    have ha := h a (List.mem_cons_self _ _)
    simp [assembleGo, ha, ih (fun id hid => h id (List.mem_cons_of_mem _ hid))]

theorem assembleGo_skip {m : RefMap} {ids : List Int}
    (hall : ∀ id ∈ ids, (refFind? m id).isSome)
    (hex : ∃ id ∈ ids, refFind? m id = some none) :
    assembleGo m ids = some none := by
  induction ids with
  | nil =>
    obtain ⟨id, hid, _⟩ := hex
    cases hid
  | cons a tl ih =>
    rcases hfa : refFind? m a with _ | oa
    · exact absurd (hall a (List.mem_cons_self _ _)) (by simp [hfa])
    · cases oa with
      | none => simp [assembleGo, hfa]
      | some ca =>
        have hex' : ∃ id ∈ tl, refFind? m id = some none := by
          obtain ⟨id, hid, hfid⟩ := hex
          rcases List.mem_cons.mp hid with rfl | hid'
          · rw [hfa] at hfid
            cases hfid
          · exact ⟨id, hid', hfid⟩
        simp [assembleGo, hfa,
          ih (fun id hid => hall id (List.mem_cons_of_mem _ hid)) hex']

theorem assembleGo_ne_none {m : RefMap} {ids : List Int}
    (hall : ∀ id ∈ ids, (refFind? m id).isSome) :
    assembleGo m ids ≠ none := by
  induction ids with
  | nil => simp [assembleGo]
  | cons a tl ih =>
    rcases hfa : refFind? m a with _ | oa
    · exact absurd (hall a (List.mem_cons_self _ _)) (by simp [hfa])
    · cases oa with
      | none => simp [assembleGo, hfa]
      | some ca =>
        simp only [assembleGo, hfa, ne_eq, Option.map_eq_none']
        exact ih (fun id hid => hall id (List.mem_cons_of_mem _ hid))

theorem loadRecords_append (m : RefMap) (l₁ l₂ : List Way) :
    loadRecords m (l₁ ++ l₂) = loadRecords m l₁ ++ loadRecords m l₂ := by
  simp [loadRecords, List.filterMap_append]

theorem loadRecords_cons_skip {m : RefMap} {w : Way}
    (h : assemble m w = some none) (l : List Way) :
    loadRecords m (w :: l) = loadRecords m l := by
  simp [loadRecords, List.filterMap_cons, h, Option.join]

/-! ### Formatter lemmas -/

theorem isDigit_digitChar {m : Nat} (h : m < 10) : (Nat.digitChar m).isDigit = true := by
  interval_cases m <;> rfl

theorem natDigsGo_digits (fuel : Nat) :
    ∀ n : Nat, ∀ c ∈ natDigsGo fuel n, c.isDigit = true := by
  induction fuel with
  | zero => intro n c hc; cases hc
  | succ fuel ih =>
    intro n c hc
    by_cases h : n < 10
    · simp only [natDigsGo, if_pos h, List.mem_singleton] at hc
      exact hc ▸ isDigit_digitChar h
    · simp only [natDigsGo, if_neg h, List.mem_append, List.mem_singleton] at hc
      rcases hc with hc | hc
      · exact ih (n / 10) c hc
      · exact hc ▸ isDigit_digitChar (Nat.mod_lt _ (by omega))

theorem natDigs_digits (n : Nat) : ∀ c ∈ natDigs n, c.isDigit = true :=
  natDigsGo_digits (n + 1) n

theorem frac7_length (m : Nat) : (frac7 m).length = 7 := by
  simp [frac7]

theorem frac7_digits (m : Nat) : ∀ c ∈ frac7 m, c.isDigit = true := by
  intro c hc
  simp only [frac7, List.mem_map, List.mem_range] at hc
  obtain ⟨i, _, rfl⟩ := hc
  exact isDigit_digitChar (Nat.mod_lt _ (by omega))

theorem formatScaled_eq (n : Int) :
    formatScaled n = String.mk (((if n < 0 then ['-'] else []) ++
      natDigs (n.natAbs / 10 ^ 7)) ++ '.' :: frac7 (n.natAbs % 10 ^ 7)) := by
  rw [formatScaled]
  split <;> (apply String.ext; simp [String.data_append])

/-! ### Load-stage lemmas -/

theorem runLoadGo_noFail {failAt : Nat → Bool}
    (rest : List (Option String × String)) (i : Nat) (acc : List StoreOp)
    (h : ∀ j, i ≤ j → j < i + rest.length → failAt j = false) :
    runLoadGo failAt rest i acc =
      (acc ++ rest.map toOp ++ [.commit], !failAt (i + rest.length)) := by
  induction rest generalizing i acc with
  | nil => simp [runLoadGo]
  | cons r rs ih =>
    have h0 : failAt i = false := h i le_rfl (by simp)
    simp only [runLoadGo, h0, Bool.false_eq_true, if_neg, ite_false]
    rw [ih (i + 1) (acc ++ [toOp r])
      (fun j hj1 hj2 => h j (by omega) (by simp at hj2 ⊢; omega))]
    have hidx : i + 1 + rs.length = i + (r :: rs).length := by simp; omega
    rw [hidx]
    simp

theorem runLoadGo_failFirst {failAt : Nat → Bool}
    (rest : List (Option String × String)) (i : Nat) (acc : List StoreOp) {j : Nat}
    (hj : j < rest.length)
    (hbefore : ∀ t, i ≤ t → t < i + j → failAt t = false)
    (hfail : failAt (i + j) = true) :
    runLoadGo failAt rest i acc = (acc ++ (rest.take (j + 1)).map toOp, false) := by
  induction rest generalizing i acc j with
  | nil => simp at hj
  | cons r rs ih =>
    cases j with
    | zero =>
      have h0 : failAt i = true := by simpa using hfail
      simp [runLoadGo, h0, List.take]
    | succ j' =>
      have h0 : failAt i = false := hbefore i le_rfl (by omega)
      simp only [runLoadGo, h0, Bool.false_eq_true, if_neg, ite_false]
      have hj' : j' < rs.length := by simp at hj; omega
      rw [ih (i + 1) (acc ++ [toOp r]) hj'
        (fun t h1 h2 => hbefore t (by omega) (by omega))
        (by rw [show i + 1 + j' = i + (j' + 1) by omega]; exact hfail)]
      simp [List.take_succ_cons, List.append_assoc]

theorem refFind?_mem {m : RefMap} {k : Int} {v : Option Coord}
    (h : refFind? m k = some v) : (k, v) ∈ m := by
  induction m with
  | nil => cases h
  | cons p rest ih =>
    obtain ⟨a, b⟩ := p
    by_cases ha : a = k
    · subst ha
      simp [refFind?] at h
      simp [h]
    · simp only [refFind?, if_neg ha] at h
      exact List.mem_cons_of_mem _ (ih h)

/-! ### The claims -/

/-- Claim C1: for every retained way, if every node identifier resolves in the
Reference Set then the assembler emits exactly one coordinate pair per node in
the way's original order; if at least one identifier is unresolved the way
yields no geometry, and such a way contributes no load record. -/
theorem c1_geometry_per_way (m : RefMap) (w : Way) (c : Int → Coord) :
    ((∀ id ∈ w.nodes, refFind? m id = some (some (c id))) →
      assemble m w =
        some (some (mkLineString (w.nodes.map (fun id => formatCoord (c id)))))) ∧
    ((∀ id ∈ w.nodes, (refFind? m id).isSome) →
      (∃ id ∈ w.nodes, refFind? m id = some none) → assemble m w = some none) ∧
    (assemble m w = some none → ∀ l₁ l₂ : List Way,
      loadRecords m (l₁ ++ w :: l₂) = loadRecords m (l₁ ++ l₂)) := by
  refine ⟨?_, ?_, ?_⟩
  · intro h
    rw [assemble, assembleGo_resolved c h]
    rfl
  · intro hall hex
    rw [assemble, assembleGo_skip hall hex]
    rfl
  · intro hskip l₁ l₂
    rw [loadRecords_append, loadRecords_cons_skip hskip, ← loadRecords_append]

/-- Witness for C1 at a two-node way with both nodes resolved. -/
theorem c1_geometry_per_way_witness :
    assemble [(10, some ((7 : ℚ), (50 : ℚ))), (11, some ((71/10 : ℚ), (501/10 : ℚ)))]
        { id := 1, nodes := [10, 11], tags := [("barrier", "city_wall")] } =
      some (some (mkLineString (([10, 11] : List Int).map (fun id =>
        formatCoord (if id = 10 then ((7 : ℚ), (50 : ℚ))
          else ((71/10 : ℚ), (501/10 : ℚ))))))) :=
  (c1_geometry_per_way _ _ _).1 (by intro id hid; fin_cases hid <;> rfl)

/-- Claim C2: after the first pass, the key set of the Reference Set is exactly
the union of the node-identifier lists of the retained ways. -/
theorem c2_keyset_union (objs : List OsmObj) (k : Int) :
    (refFind? (pass1 objs).cwall_nodes k).isSome ↔
      ∃ w ∈ (pass1 objs).cwalls, k ∈ w.nodes :=
  pass1_keys objs k

/-- Claim C3: resolving an identifier whose coordinate is already set aborts
with the duplicate error; over a stream of distinct node identifiers pass 2
succeeds, resolves each Reference-Set identifier that occurs exactly once
(regardless of how many ways referenced it), and bumps the counter once per
resolution. -/
theorem c3_resolve_once :
    (∀ (st : Pass2State) (n : Node) (c : Coord),
      refFind? st.cwall_nodes n.id = some (some c) →
      pass2Step st (.node n) = .error "Duplicate node ID") ∧
    (∀ (objs : List OsmObj) (st : Pass2State),
      (nodeIds objs).Nodup → allNone st.cwall_nodes →
      ∃ st', pass2 st objs = .ok st' ∧
        (∀ k ∈ nodeIds objs, (refFind? st.cwall_nodes k).isSome →
          ∃ c, refFind? st'.cwall_nodes k = some (some c)) ∧
        st'.node_count = st.node_count +
          ((nodeIds objs).filter
            (fun k => (refFind? st.cwall_nodes k).isSome)).length) := by
  constructor
  · intro st n c h
    exact pass2Step_node_resolved c h
  · intro objs st hnd hall
    have hno : ∀ k ∈ nodeIds objs, ∀ c : Coord,
        refFind? st.cwall_nodes k ≠ some (some c) := by
      intro k _ c heq
      have := hall _ (refFind?_mem heq)
      cases this
    obtain ⟨st', hrun, _, hres, hcnt⟩ := pass2_run_distinct objs st hnd hno
    exact ⟨st', hrun, hres, hcnt⟩

/-- Witness for C3: a duplicate resolution aborts; a single fresh node
resolves once and the counter reports one resolution. -/
theorem c3_resolve_once_witness :
    pass2Step { cwall_nodes := [(10, some ((7 : ℚ), (50 : ℚ)))], node_count := 1 }
        (.node { id := 10, lon := 7, lat := 50 }) = .error "Duplicate node ID" ∧
    ∃ st', pass2 { cwall_nodes := [(10, none), (12, none)], node_count := 0 }
        [.node { id := 10, lon := 7, lat := 50 }] = .ok st' ∧
      (∀ k ∈ nodeIds [.node { id := 10, lon := 7, lat := 50 }],
        (refFind? [(10, none), (12, none)] k).isSome →
          ∃ c, refFind? st'.cwall_nodes k = some (some c)) ∧
      st'.node_count = 0 +
        ((nodeIds [.node { id := 10, lon := 7, lat := 50 }]).filter
          (fun k => (refFind? [(10, none), (12, none)] k).isSome)).length :=
  ⟨c3_resolve_once.1 _ _ ((7 : ℚ), (50 : ℚ)) rfl,
   c3_resolve_once.2 [.node { id := 10, lon := 7, lat := 50 }]
     { cwall_nodes := [(10, none), (12, none)], node_count := 0 }
     (by decide)
     (by
       intro p hp
       have hp' : p ∈ ([(10, none), (12, none)] : RefMap) := hp
       fin_cases hp' <;> rfl)⟩

/-- Claim C4: pass 2 never adds or removes a Reference-Set key — absent
identifiers are ignored, occupied ones only have their value filled, a second
fill is fatal — so the key set is unchanged by any successful pass-2 run. -/
theorem c4_pass2_keyset :
    (∀ (st st' : Pass2State) (objs : List OsmObj), pass2 st objs = .ok st' →
      ∀ k, (refFind? st'.cwall_nodes k).isSome =
        (refFind? st.cwall_nodes k).isSome) ∧
    (∀ (st : Pass2State) (n : Node), refFind? st.cwall_nodes n.id = none →
      pass2Step st (.node n) = .ok st) ∧
    (∀ (st : Pass2State) (n : Node) (c : Coord),
      refFind? st.cwall_nodes n.id = some (some c) →
      pass2Step st (.node n) = .error "Duplicate node ID") :=
  ⟨fun _ _ _ h k => pass2_ok_keys h k,
   fun _ _ h => pass2Step_node_vacant h,
   fun _ _ c h => pass2Step_node_resolved c h⟩

/-- Witness for C4: a run over one irrelevant and one relevant node keeps the
key set; a vacant lookup is a no-op; a second fill aborts. -/
theorem c4_pass2_keyset_witness :
    (∀ k, (refFind? (([(10, some ((7 : ℚ), (50 : ℚ)))] : RefMap)) k).isSome =
      (refFind? [(10, none)] k).isSome) ∧
    pass2Step { cwall_nodes := [(10, none)], node_count := 0 }
      (.node { id := 99, lon := 1, lat := 2 }) =
      .ok { cwall_nodes := [(10, none)], node_count := 0 } ∧
    pass2Step { cwall_nodes := [(10, some ((7 : ℚ), (50 : ℚ)))], node_count := 1 }
      (.node { id := 10, lon := 7, lat := 50 }) = .error "Duplicate node ID" :=
  ⟨fun k => c4_pass2_keyset.1
      { cwall_nodes := [(10, none)], node_count := 0 }
      { cwall_nodes := [(10, some ((7 : ℚ), (50 : ℚ)))], node_count := 1 }
      [.node { id := 10, lon := 7, lat := 50 }] rfl k,
   c4_pass2_keyset.2.1 _ { id := 99, lon := 1, lat := 2 } rfl,
   c4_pass2_keyset.2.2 _ { id := 10, lon := 7, lat := 50 } ((7 : ℚ), (50 : ℚ)) rfl⟩

/-- Claim C5: non-way objects and non-matching ways contribute nothing in
pass 1 — they leave the state untouched and can be deleted from the stream
without changing the pass-1 result. -/
theorem c5_irrelevant_objects :
    (∀ (st : Pass1State) (obj : OsmObj), wayFilter obj = none →
      pass1Step st obj = st) ∧
    (∀ n : Node, wayFilter (.node n) = none) ∧
    (∀ i : Int, wayFilter (.relation i) = none) ∧
    (∀ w : Way, isCityWall w = false → wayFilter (.way w) = none) ∧
    (∀ (obj : OsmObj) (l₁ l₂ : List OsmObj), wayFilter obj = none →
      pass1 (l₁ ++ obj :: l₂) = pass1 (l₁ ++ l₂)) := by
  have hstep : ∀ (st : Pass1State) (obj : OsmObj), wayFilter obj = none →
      pass1Step st obj = st := by
    intro st obj h
    cases obj with
    | node n => rfl
    | relation i => rfl
    | way w =>
      simp only [wayFilter] at h
      rcases hw : isCityWall w with _ | _
      · simp [pass1Step, hw]
      · rw [hw] at h
        simp at h
  refine ⟨hstep, fun _ => rfl, fun _ => rfl, fun w hw => by simp [wayFilter, hw], ?_⟩
  intro obj l₁ l₂ h
  rw [pass1, pass1, List.foldl_append, List.foldl_append, List.foldl_cons,
    hstep _ obj h]

/-- Witness for C5: a relation, a node and a non-matching way all leave the
pass-1 state unchanged. -/
theorem c5_irrelevant_objects_witness :
    pass1Step { cwalls := [], cwall_nodes := [] } (.relation 0) =
      { cwalls := [], cwall_nodes := [] } ∧
    wayFilter (.way { id := 2, nodes := [5], tags := [("highway", "residential")] }) =
      none ∧
    pass1 ([] ++ OsmObj.relation 0 :: []) = pass1 ([] ++ []) :=
  ⟨c5_irrelevant_objects.1 _ (.relation 0) rfl,
   c5_irrelevant_objects.2.2.2.1
     { id := 2, nodes := [5], tags := [("highway", "residential")] } rfl,
   c5_irrelevant_objects.2.2.2.2 (.relation 0) [] [] rfl⟩

/-- Claim C6: folding a way's identifier list into the Reference Set treats an
existing key as a no-op — a key already mapping to an absent coordinate still
does so, a folded-in key maps to an absent coordinate, and folding the same
list twice equals folding it once. -/
theorem c6_reinsert_noop (m : RefMap) (ids : List Int) (k : Int) :
    (refFind? m k = some none → refFind? (refExtend m ids) k = some none) ∧
    (k ∈ ids → refFind? (refExtend m ids) k = some none) ∧
    refExtend (refExtend m ids) ids = refExtend m ids := by
  refine ⟨?_, fun hk => refFind?_extend_mem_none m hk, refExtend_idem m ids⟩
  intro h
  by_cases hk : k ∈ ids
  · exact refFind?_extend_mem_none m hk
  · rw [refFind?_extend_notMem m hk]
    exact h

/-- Witness for C6 at a key that is already present. -/
theorem c6_reinsert_noop_witness :
    refFind? (refExtend [(10, none)] [10, 11]) 10 = some none ∧
    refFind? (refExtend [(10, none)] [10, 11]) 11 = some none ∧
    refExtend (refExtend [(10, none)] [10, 11]) [10, 11] =
      refExtend [(10, none)] [10, 11] :=
  ⟨(c6_reinsert_noop [(10, none)] [10, 11] 10).1 rfl,
   (c6_reinsert_noop [(10, none)] [10, 11] 11).2.1 (by decide),
   (c6_reinsert_noop [(10, none)] [10, 11] 11).2.2⟩

/-- Claim C7: every coordinate renders with exactly 7 digits after the decimal
point (e.g. `7.1` as `7.1000000`), the two values of a pair are
space-separated, pairs are comma-separated and wrapped as
`LineString(<pairs>)`. -/
theorem c7_formatting :
    (∀ q : ℚ, ∃ pre post : List Char,
      formatFixed7 q = String.mk (pre ++ '.' :: post) ∧
      post.length = 7 ∧ post.all Char.isDigit = true ∧
      pre.all (fun ch => ch != '.') = true) ∧
    formatFixed7 (71/10) = "7.1000000" ∧
    (∀ lon lat : ℚ, formatCoord (lon, lat) =
      formatFixed7 lon ++ " " ++ formatFixed7 lat) ∧
    (∀ strs : List String, mkLineString strs =
      "LineString(" ++ String.intercalate "," strs ++ ")") := by
  refine ⟨?_, ?_, fun lon lat => rfl, fun strs => rfl⟩
  · intro q
    rw [formatFixed7, formatScaled_eq]
    refine ⟨_, _, rfl, frac7_length _, List.all_eq_true.mpr (frac7_digits _), ?_⟩
    rw [List.all_eq_true]
    intro c hc
    rcases List.mem_append.mp hc with hc | hc
    · split at hc
      · simp only [List.mem_singleton] at hc
        subst hc
        rfl
      · cases hc
    · have hd := natDigs_digits _ c hc
      rw [bne_iff_ne]
      intro heq
      rw [heq] at hd
      exact absurd hd (by decide)
  · have hr : round ((71 : ℚ)/10 * 10 ^ 7) = 71000000 := by
      rw [round_eq]
      norm_num
    rw [formatFixed7, hr]
    decide

/-- Claim C8: the load stage opens the transaction first, executes exactly one
parameterized insert per successfully assembled way in pass-1 order, commits
exactly once at the end, and any begin/insert/commit failure aborts the run
with no commit and no retried insert. -/
theorem c8_load_transaction (m : RefMap) (ways : List Way) (failAt : Nat → Bool) :
    (failAt 0 = true → runLoad (loadRecords m ways) failAt = ([.beginTx], false)) ∧
    (failAt 0 = false → ∀ j, j < (loadRecords m ways).length →
      (∀ t, t ≤ j → failAt t = false) → failAt (j + 1) = true →
      runLoad (loadRecords m ways) failAt =
        (.beginTx :: ((loadRecords m ways).take (j + 1)).map toOp, false)) ∧
    ((∀ t, t ≤ (loadRecords m ways).length → failAt t = false) →
      failAt ((loadRecords m ways).length + 1) = true →
      runLoad (loadRecords m ways) failAt =
        (.beginTx :: (loadRecords m ways).map toOp ++ [.commit], false)) ∧
    ((∀ t, t ≤ (loadRecords m ways).length + 1 → failAt t = false) →
      runLoad (loadRecords m ways) failAt =
        (.beginTx :: (loadRecords m ways).map toOp ++ [.commit], true)) := by
  refine ⟨?_, ?_, ?_, ?_⟩
  · intro h
    simp [runLoad, h]
  · intro h0 j hj hbef hfail
    rw [runLoad, if_neg (by simp [h0])]
    rw [runLoadGo_failFirst _ 1 _ hj (fun t h1 h2 => hbef t (by omega))
      (by rw [show 1 + j = j + 1 by omega]; exact hfail)]
    rfl
  · intro hbef hfail
    rw [runLoad, if_neg (by simp [hbef 0 (by omega)])]
    rw [runLoadGo_noFail _ 1 _ (fun t h1 h2 => hbef t (by omega))]
    rw [show (1 : Nat) + (loadRecords m ways).length =
      (loadRecords m ways).length + 1 by omega, hfail]
    rfl
  · intro hbef
    rw [runLoad, if_neg (by simp [hbef 0 (by omega)])]
    rw [runLoadGo_noFail _ 1 _ (fun t h1 h2 => hbef t (by omega))]
    rw [show (1 : Nat) + (loadRecords m ways).length =
      (loadRecords m ways).length + 1 by omega, hbef _ (by omega)]
    rfl

/-- Witness for C8: a store that never fails runs begin, one insert per
record and a final commit, successfully. -/
theorem c8_load_transaction_witness :
    runLoad (loadRecords [(10, some ((7 : ℚ), (50 : ℚ)))]
        [{ id := 1, nodes := [10], tags := [("barrier", "city_wall"), ("name", "Wall")] }])
        (fun _ => false) =
      (.beginTx :: (loadRecords [(10, some ((7 : ℚ), (50 : ℚ)))]
        [{ id := 1, nodes := [10], tags := [("barrier", "city_wall"), ("name", "Wall")] }]).map
          toOp ++ [.commit], true) :=
  (c8_load_transaction _ _ _).2.2.2 (fun _ _ => rfl)

/-- Claim C9: the reported counts are accurate — pass 1 reports the retained
ways and the number of distinct referenced identifiers, pass 2 reports the
number of Reference-Set entries resolved during pass 2. -/
theorem c9_progress_counts :
    (∀ objs : List OsmObj, (pass1 objs).cwalls = objs.filterMap wayFilter) ∧
    (∀ objs : List OsmObj, (pass1 objs).cwall_nodes.length =
      ((pass1 objs).cwalls.flatMap Way.nodes).dedup.length) ∧
    (∀ objs : List OsmObj, resolvedCount (pass1 objs).cwall_nodes = 0) ∧
    (∀ (objs objs2 : List OsmObj) (st' : Pass2State),
      pass2 { cwall_nodes := (pass1 objs).cwall_nodes, node_count := 0 } objs2 =
        .ok st' →
      st'.node_count = resolvedCount st'.cwall_nodes) := by
  refine ⟨pass1_cwalls, ?_,
    fun objs => resolvedCount_allNone (pass1_allNone objs), ?_⟩
  · intro objs
    have hnd : (refKeys (pass1 objs).cwall_nodes).Nodup := pass1_nodupKeys objs
    have hmem : ∀ k, k ∈ refKeys (pass1 objs).cwall_nodes ↔
        k ∈ ((pass1 objs).cwalls.flatMap Way.nodes).dedup := by
      intro k
      rw [mem_refKeys, pass1_keys, List.mem_dedup, List.mem_flatMap]
    have hperm := (List.perm_ext_iff_of_nodup hnd (List.nodup_dedup _)).mpr hmem
    rw [← length_refKeys, hperm.length_eq]
  · intro objs objs2 st' h
    have h1 : st'.node_count + resolvedCount (pass1 objs).cwall_nodes =
        0 + resolvedCount st'.cwall_nodes := pass2_ok_count h
    have h2 : resolvedCount (pass1 objs).cwall_nodes = 0 :=
      resolvedCount_allNone (pass1_allNone objs)
    omega

/-- Witness for C9: one retained way referencing one node, resolved by one
node object; the pass-2 counter equals the resolved-entry count. -/
theorem c9_progress_counts_witness :
    ({ cwall_nodes := [(10, some ((7 : ℚ), (50 : ℚ)))], node_count := 1 } :
      Pass2State).node_count =
      resolvedCount [(10, some ((7 : ℚ), (50 : ℚ)))] :=
  c9_progress_counts.2.2.2
    [.way { id := 1, nodes := [10], tags := [("barrier", "city_wall")] }]
    [.node { id := 10, lon := 7, lat := 50 }]
    { cwall_nodes := [(10, some ((7 : ℚ), (50 : ℚ)))], node_count := 1 } rfl

/-- Claim C10: after a successful pass 2 started from the pass-1 Reference
Set, every node identifier of every retained way is a key of the map, so the
assembler's unguarded lookup can never hit a missing key (no panic). -/
theorem c10_lookup_safe (objs objs2 : List OsmObj) (st' : Pass2State)
    (h : pass2 { cwall_nodes := (pass1 objs).cwall_nodes, node_count := 0 } objs2 =
      .ok st') :
    ∀ w ∈ (pass1 objs).cwalls,
      (∀ id ∈ w.nodes, (refFind? st'.cwall_nodes id).isSome) ∧
      assemble st'.cwall_nodes w ≠ none := by
  intro w hw
  have hall : ∀ id ∈ w.nodes, (refFind? st'.cwall_nodes id).isSome := by
    intro id hid
    have h1 : (refFind? st'.cwall_nodes id).isSome =
        (refFind? (pass1 objs).cwall_nodes id).isSome := pass2_ok_keys h id
    rw [h1]
    exact (pass1_keys objs id).mpr ⟨w, hw, hid⟩
  refine ⟨hall, ?_⟩
  simp only [assemble, ne_eq, Option.map_eq_none']
  exact assembleGo_ne_none hall

/-- Witness for C10 at a one-way, one-node pipeline run. -/
theorem c10_lookup_safe_witness :
    (∀ id ∈ ([10] : List Int),
      (refFind? [(10, some ((7 : ℚ), (50 : ℚ)))] id).isSome) ∧
    assemble [(10, some ((7 : ℚ), (50 : ℚ)))]
      { id := 1, nodes := [10], tags := [("barrier", "city_wall")] } ≠ none :=
  c10_lookup_safe
    [.way { id := 1, nodes := [10], tags := [("barrier", "city_wall")] }]
    [.node { id := 10, lon := 7, lat := 50 }]
    { cwall_nodes := [(10, some ((7 : ℚ), (50 : ℚ)))], node_count := 1 } rfl
    { id := 1, nodes := [10], tags := [("barrier", "city_wall")] }
    (show _ ∈ [_] from List.mem_cons_self _ _)

end CityWalls
